import Mathlib

/-!
Shallow embedding of `src/prototypes/intelligent_load_balancer.py`.

Conventions used throughout:
* Python floats are modelled as rationals (`ℚ`); Python ints as `ℕ` (or `ℤ`
  where the source value can go negative, e.g. round-robin current weights).
* Python dicts keyed by account id are modelled as total functions
  `String → _`; a `defaultdict` default (or the explicit `if key not in dict`
  initialisation in the source) is the function's value on untouched keys.
* `time.time()` / `datetime.now()` become explicit `now : ℚ` parameters.
* `random.choice(seq)` becomes `listChoice seq r` for an explicit random
  seed `r : ℕ`, reduced mod the sequence length.
* Methods that mutate `self` become functions returning the new state.
-/

namespace LB

/-- Python `min` over a non-empty list of rationals (0 on `[]`; every caller
in the source guards non-emptiness). -/
def listMin : List ℚ → ℚ
  | [] => 0
  | [x] => x
  | x :: y :: t => min x (listMin (y :: t))

/-- Python `max` over a non-empty list of rationals (0 on `[]`). -/
def listMax : List ℚ → ℚ
  | [] => 0
  | [x] => x
  | x :: y :: t => max x (listMax (y :: t))

/-- Python `random.choice(l)` with the randomness source made explicit: an
arbitrary natural seed reduced mod the list length. -/
def listChoice (l : List α) (r : ℕ) : Option α := l[r % l.length]?

/-- Python `int(q)` on a float value: truncation toward zero. -/
def truncInt (q : ℚ) : ℤ := if 0 ≤ q then ⌊q⌋ else ⌈q⌉

/-- Stable insertion into a list kept in descending `key` order: the new
element goes in front of the first existing element whose key is `≤` its own,
so equal-key elements keep their original relative order.  Together with
`sortKeyDesc` this models Python's stable `sorted(..., reverse=True)`. -/
def insertKeyDesc (key : α → ℚ) (a : α) : List α → List α
  | [] => [a]
  | b :: bs => if key b ≤ key a then a :: b :: bs else b :: insertKeyDesc key a bs

/-- Stable descending sort by `key`; models `sorted(l, key=key, reverse=True)`. -/
def sortKeyDesc (key : α → ℚ) : List α → List α
  | [] => []
  | a :: as => insertKeyDesc key a (sortKeyDesc key as)

/-- `AccountMetrics` dataclass. -/
structure AccountMetrics where
  account_id : String
  daily_cost : ℚ := 0
  daily_requests : ℕ := 0
  success_rate : ℚ := 1
  avg_response_time : ℚ := 0
  current_concurrent : ℕ := 0
  requests_per_minute : ℚ := 0
  uptime_hours : ℚ := 24
  total_hours : ℚ := 24
  recovery_time_avg : ℚ := 0
  error_count : ℕ := 0
  last_used : Option ℚ := none
  status : String := "active"
  priority : ℕ := 50
deriving DecidableEq, Repr

/-- `Account` dataclass. -/
structure Account where
  id : String
  name : String
  status : String := "active"
  priority : ℕ := 50
  metrics : AccountMetrics
deriving DecidableEq, Repr

/-! ## MetricsCollector -/

/-- State of `MetricsCollector`: bounded response-time and cost windows plus
all-time success / total counters, keyed by account id. -/
structure MCState where
  window_size : ℕ
  response_times : String → List ℚ
  success_counts : String → ℕ
  total_counts : String → ℕ
  cost_history : String → List ℚ

/-- `MetricsCollector.__init__` (default window size 100). -/
def initMC (w : ℕ) : MCState :=
  ⟨w, fun _ => [], fun _ => 0, fun _ => 0, fun _ => []⟩

/-- `deque(maxlen=w).append x`: append on the right, evicting from the left
when the window is over capacity. -/
def appendBounded (w : ℕ) (xs : List ℚ) (x : ℚ) : List ℚ :=
  let ys := xs ++ [x]
  if w < ys.length then ys.drop (ys.length - w) else ys

/-- `MetricsCollector.record_request`. -/
def record_request (s : MCState) (id : String) (rt : ℚ) (success : Bool) (cost : ℚ) :
    MCState :=
  { s with
    response_times := fun k =>
      if k = id then appendBounded s.window_size (s.response_times k) rt
      else s.response_times k
    total_counts := fun k => if k = id then s.total_counts k + 1 else s.total_counts k
    success_counts := fun k =>
      if k = id then (if success then s.success_counts k + 1 else s.success_counts k)
      else s.success_counts k
    cost_history := fun k =>
      if k = id then
        (if 0 < cost then appendBounded s.window_size (s.cost_history k) cost
         else s.cost_history k)
      else s.cost_history k }

/-- The dictionary returned by `MetricsCollector.get_metrics`. -/
structure MetricsSnapshot where
  avg_response_time : ℚ
  success_rate : ℚ
  daily_cost : ℚ
  daily_requests : ℕ
  requests_per_minute : ℚ
deriving DecidableEq, Repr

/-- `MetricsCollector.get_metrics`. -/
def get_metrics (s : MCState) (id : String) : MetricsSnapshot :=
  let rts := s.response_times id
  let costs := s.cost_history id
  { avg_response_time := if rts = [] then 0 else rts.sum / (rts.length : ℚ)
    success_rate := (s.success_counts id : ℚ) / ((max 1 (s.total_counts id) : ℕ) : ℚ)
    daily_cost := costs.sum
    daily_requests := rts.length
    requests_per_minute := (rts.length : ℚ) / max 1 ((rts.length : ℚ) * 0.01) }

/-! ## AccountScorer -/

/-- `AccountScorer.normalize`. -/
def normalize (value min_val max_val : ℚ) : ℚ :=
  if max_val = min_val then 1/2
  else max 0 (min 1 ((value - min_val) / (max_val - min_val)))

/-- `AccountScorer.calculate_cost_score`. -/
def calculate_cost_score (account : Account) (all_accounts : List Account) : ℚ :=
  if account.metrics.daily_requests = 0 then 1/2
  else
    let cost_per_request :=
      account.metrics.daily_cost / (account.metrics.daily_requests : ℚ)
    let all_costs :=
      (all_accounts.filter (fun acc => 0 < acc.metrics.daily_requests)).map
        (fun acc => acc.metrics.daily_cost / (acc.metrics.daily_requests : ℚ))
    if all_costs.length < 2 then 1/2
    else 1 - normalize cost_per_request (listMin all_costs) (listMax all_costs)

/-- `AccountScorer.calculate_health_score`. -/
def calculate_health_score (account : Account) (all_accounts : List Account) : ℚ :=
  let all_response_times :=
    (all_accounts.filter (fun acc => 0 < acc.metrics.avg_response_time)).map
      (fun acc => acc.metrics.avg_response_time)
  let response_score :=
    if all_response_times = [] then 1/2
    else 1 - normalize account.metrics.avg_response_time
        (listMin all_response_times) (listMax all_response_times)
  let availability : ℚ := if account.status = "active" then 1 else 0
  0.4 * response_score + 0.4 * account.metrics.success_rate + 0.2 * availability

/-- `AccountScorer.calculate_performance_score`. -/
def calculate_performance_score (account : Account) (all_accounts : List Account) : ℚ :=
  let all_throughputs := all_accounts.map (fun acc => acc.metrics.requests_per_minute)
  let throughput_score :=
    if all_throughputs ≠ [] ∧ listMin all_throughputs < listMax all_throughputs then
      normalize account.metrics.requests_per_minute
        (listMin all_throughputs) (listMax all_throughputs)
    else 1/2
  let all_concurrent :=
    all_accounts.map (fun acc => (acc.metrics.current_concurrent : ℚ))
  let load_balance_score :=
    if all_concurrent ≠ [] ∧ listMin all_concurrent < listMax all_concurrent then
      1 - normalize (account.metrics.current_concurrent : ℚ)
        (listMin all_concurrent) (listMax all_concurrent)
    else 1/2
  0.6 * throughput_score + 0.4 * load_balance_score

/-- `AccountScorer.calculate_reliability_score`. -/
def calculate_reliability_score (account : Account) (all_accounts : List Account) : ℚ :=
  let uptime_score := account.metrics.uptime_hours / max 1 account.metrics.total_hours
  let all_recovery_times :=
    (all_accounts.filter (fun acc => 0 < acc.metrics.recovery_time_avg)).map
      (fun acc => acc.metrics.recovery_time_avg)
  let error_recovery_score :=
    if all_recovery_times = [] then 1/2
    else 1 - normalize account.metrics.recovery_time_avg
        (listMin all_recovery_times) (listMax all_recovery_times)
  0.6 * uptime_score + 0.4 * error_recovery_score

/-- `AccountScorer.calculate_account_score`, with the scorer's weight dict
`{cost: 0.4, health: 0.3, performance: 0.2, reliability: 0.1}` inlined. -/
def calculate_account_score (account : Account) (all_accounts : List Account) : ℚ :=
  0.4 * calculate_cost_score account all_accounts +
  0.3 * calculate_health_score account all_accounts +
  0.2 * calculate_performance_score account all_accounts +
  0.1 * calculate_reliability_score account all_accounts

/-! ## CostOptimizer -/

/-- `CostOptimizer.select_account`.  The sort models Python's stable
`sort(..., reverse=True)`; the arg-max with first-encountered tie-break is the
head of the stable descending sort. -/
def cost_optimizer_select (accounts : List Account) : Option Account :=
  let healthy := accounts.filter (fun acc => acc.status = "active")
  match healthy with
  | [] => none
  | [a] => some a
  | _ :: _ :: _ =>
    let key := fun (a : Account) =>
      0.7 * calculate_cost_score a healthy + 0.3 * calculate_health_score a healthy
    (sortKeyDesc key healthy).head?

/-! ## WeightedRoundRobin -/

/-- State of `WeightedRoundRobin`: the two per-account-id weight dicts.
Dict entries absent in Python are created holding 0, so the function model
uses 0 as the value on untouched ids. -/
structure WRRState where
  current_weights : String → ℤ
  total_weights : String → ℤ

/-- The dynamic-weight update loop: for every healthy account,
`total_weights[id] = max(1, int(score * 100))`. -/
def wrrUpdateTotals (healthy : List Account) (tw : String → ℤ) : String → ℤ :=
  healthy.foldl
    (fun tw a => fun k =>
      if k = a.id then max 1 (truncInt (calculate_account_score a healthy * 100))
      else tw k)
    tw

/-- The smooth-WRR scan: each candidate's current weight is incremented by its
total weight, tracking the maximum current weight seen (strictly greater
wins, so ties keep the earliest candidate) and its owner.  Returns the
updated current-weight map, the maximum, and the selected account. -/
def wrrScan (tw : String → ℤ) :
    List Account → (String → ℤ) → ℤ → Option Account →
      (String → ℤ) × ℤ × Option Account
  | [], cw, m, sel => (cw, m, sel)
  | a :: rest, cw, m, sel =>
    let v := cw a.id + tw a.id
    let cw' := fun k => if k = a.id then cw a.id + tw a.id else cw k
    if m < v then wrrScan tw rest cw' v (some a)
    else wrrScan tw rest cw' m sel

/-- `WeightedRoundRobin.select_account`. -/
def wrr_select (s : WRRState) (accounts : List Account) :
    Option Account × WRRState :=
  if accounts = [] then (none, s)
  else
    let healthy := accounts.filter (fun acc => acc.status = "active")
    if healthy = [] then (none, s)
    else
      let tw := wrrUpdateTotals healthy s.total_weights
      let scan := wrrScan tw healthy s.current_weights (-1) none
      match scan.2.2 with
      | none => (none, { current_weights := scan.1, total_weights := tw })
      | some w =>
        let total_weight_sum := (healthy.map (fun a => tw a.id)).sum
        (some w,
         { current_weights :=
             fun k => if k = w.id then scan.1 k - total_weight_sum else scan.1 k
           total_weights := tw })

/-! ## HealthMonitor -/

/-- The dict produced by `HealthMonitor._measure_health_metrics`. -/
structure HealthMetrics where
  response_time : ℚ
  success_rate : ℚ
  error_rate : ℚ
  rate_limit_status : Bool
deriving DecidableEq, Repr

/-- An entry of `HealthMonitor.health_cache`. -/
structure HealthCacheEntry where
  healthy : Bool
  metricsSnap : HealthMetrics
  timestamp : ℚ
deriving DecidableEq, Repr

/-- State of `HealthMonitor`. -/
structure HMState where
  check_interval : ℚ
  health_cache : String → Option HealthCacheEntry

/-- `HealthMonitor._measure_health_metrics`. -/
def measure_health_metrics (a : Account) : HealthMetrics :=
  { response_time := a.metrics.avg_response_time
    success_rate := a.metrics.success_rate
    error_rate := 1 - a.metrics.success_rate
    rate_limit_status := decide (10 < a.metrics.error_count) }

/-- The fresh health verdict computed by `HealthMonitor.check_account_health`
on a cache miss or an expired entry. -/
def health_verdict (a : Account) : Bool :=
  let m := measure_health_metrics a
  decide (m.response_time < 5000) && decide (0.95 < m.success_rate) &&
    decide (m.error_rate < 0.05) && !m.rate_limit_status &&
    decide (a.status = "active")

/-- `HealthMonitor.check_account_health` at wall-clock time `now`. -/
def check_account_health (s : HMState) (a : Account) (now : ℚ) : Bool × HMState :=
  match s.health_cache a.id with
  | some e =>
    if now - e.timestamp < s.check_interval then (e.healthy, s)
    else
      let h := health_verdict a
      (h, { s with health_cache := fun k =>
              if k = a.id then some ⟨h, measure_health_metrics a, now⟩
              else s.health_cache k })
  | none =>
    let h := health_verdict a
    (h, { s with health_cache := fun k =>
            if k = a.id then some ⟨h, measure_health_metrics a, now⟩
            else s.health_cache k })

/-! ## FailureRecovery -/

/-- An entry of `FailureRecovery.circuit_breaker`; `status` and `type` are the
string literals used by the source. -/
structure BreakerRecord where
  status : String
  retry_time : ℚ
  type : String
deriving DecidableEq, Repr

/-- State of `FailureRecovery`. -/
structure FRState where
  failure_counts : String → ℕ
  recovery_attempts : String → ℕ
  circuit_breaker : String → Option BreakerRecord

/-- `FailureRecovery.__init__`. -/
def initFR : FRState := ⟨fun _ => 0, fun _ => 0, fun _ => none⟩

/-- `FailureRecovery._mark_temporary_failure`. -/
def mark_temporary_failure (s : FRState) (id : String) (retry_delay now : ℚ) :
    FRState :=
  { s with circuit_breaker := fun k =>
      if k = id then some ⟨"open", now + retry_delay, "temporary"⟩
      else s.circuit_breaker k }

/-- `FailureRecovery._activate_circuit_breaker`. -/
def activate_circuit_breaker (s : FRState) (id : String) (now : ℚ) : FRState :=
  let failure_count := s.failure_counts id
  if 5 ≤ failure_count then
    let backoff_time : ℕ := min (300 * 2 ^ (failure_count - 5)) 3600
    { s with circuit_breaker := fun k =>
        if k = id then some ⟨"open", now + (backoff_time : ℚ), "circuit_breaker"⟩
        else s.circuit_breaker k }
  else s

/-- `FailureRecovery.handle_request_failure`.  The token-refresh branch only
notifies an external collaborator (a print in the source) before marking a
60-second temporary failure, so the notification has no state here. -/
def handle_request_failure (s : FRState) (id error_type : String) (now : ℚ) :
    FRState :=
  let s1 := { s with failure_counts := fun k =>
      if k = id then s.failure_counts k + 1 else s.failure_counts k }
  if error_type = "rate_limit" ∨ error_type = "quota_exceeded" then
    mark_temporary_failure s1 id 300 now
  else if error_type = "auth_error" ∨ error_type = "invalid_token" then
    mark_temporary_failure s1 id 60 now
  else
    activate_circuit_breaker s1 id now

/-- `FailureRecovery.can_use_account` at wall-clock time `now`. -/
def can_use_account (s : FRState) (id : String) (now : ℚ) : Bool × FRState :=
  match s.circuit_breaker id with
  | none => (true, s)
  | some cb =>
    if cb.status = "open" then
      if cb.retry_time ≤ now then
        (true, { s with circuit_breaker := fun k =>
            if k = id then some { cb with status := "half_open" }
            else s.circuit_breaker k })
      else (false, s)
    else (true, s)

/-- `FailureRecovery.mark_success`. -/
def mark_success (s : FRState) (id : String) : FRState :=
  { s with
    failure_counts := fun k => if k = id then 0 else s.failure_counts k
    circuit_breaker := fun k => if k = id then none else s.circuit_breaker k }

/-! ## IntelligentScheduler -/

/-- The `context` dict: the two recognized boolean keys. -/
structure Context where
  cost_sensitive : Bool := false
  high_concurrency : Bool := false
deriving DecidableEq, Repr

/-- State of `IntelligentScheduler` (the scorer is stateless; its unused
min-max cache is omitted). -/
structure SchedulerState where
  collector : MCState
  healthMon : HMState
  failureRec : FRState
  wrr : WRRState
  total_selections : ℕ
  avg_selection_time : ℚ
  cache_hits : ℕ
  algorithm_usage : String → ℕ

/-- The metric refresh performed on each candidate inside
`IntelligentScheduler._filter_available_accounts`. -/
def refreshAccount (mc : MCState) (a : Account) : Account :=
  let m := get_metrics mc a.id
  { a with metrics := { a.metrics with
      avg_response_time := m.avg_response_time
      success_rate := m.success_rate
      daily_cost := m.daily_cost
      daily_requests := m.daily_requests
      requests_per_minute := m.requests_per_minute } }

/-- The loop of `IntelligentScheduler._filter_available_accounts`: refresh
each candidate's metrics, then keep it iff the health check passes and the
breaker admits it.  `can_use_account` is only evaluated when the health check
succeeded (Python's short-circuit `and`), so a failed health check performs
no breaker transition.  Returns the refreshed full list, the refreshed
available sublist, and the updated monitor/breaker states. -/
def filterAvailableAux (mc : MCState) :
    List Account → HMState → FRState → ℚ →
      List Account × List Account × HMState × FRState
  | [], hm, fr, _ => ([], [], hm, fr)
  | a :: rest, hm, fr, now =>
    let a' := refreshAccount mc a
    let hc := check_account_health hm a' now
    if hc.1 then
      let cu := can_use_account fr a'.id now
      let r := filterAvailableAux mc rest hc.2 cu.2 now
      (a' :: r.1, (if cu.1 then a' :: r.2.1 else r.2.1), r.2.2)
    else
      let r := filterAvailableAux mc rest hc.2 fr now
      (a' :: r.1, r.2)

/-- `IntelligentScheduler._filter_available_accounts` applied to a scheduler
state. -/
def schedFilter (s : SchedulerState) (accounts : List Account) (now : ℚ) :
    List Account × List Account × HMState × FRState :=
  filterAvailableAux s.collector accounts s.healthMon s.failureRec now

/-- The scheduler state after the statistics bump and the filtering step of
`IntelligentScheduler.select_account`. -/
def schedAfterFilter (s : SchedulerState) (accounts : List Account) (now : ℚ) :
    SchedulerState :=
  let f := schedFilter s accounts now
  { s with total_selections := s.total_selections + 1
           healthMon := f.2.2.1
           failureRec := f.2.2.2 }

/-- `IntelligentScheduler._select_algorithm`. -/
def select_algorithm : Option Context → String
  | none => "intelligent"
  | some c =>
    if c.cost_sensitive then "cost_first"
    else if c.high_concurrency then "weighted_round_robin"
    else "intelligent"

/-- `self.selection_stats['algorithm_usage'][algorithm] += 1`. -/
def bumpUsage (s : SchedulerState) (alg : String) : SchedulerState :=
  { s with algorithm_usage := fun k =>
      if k = alg then s.algorithm_usage k + 1 else s.algorithm_usage k }

/-- The composite used by `IntelligentScheduler._intelligent_selection`, with
the scheduler's own weight dict `{cost_priority: 0.4, performance: 0.3,
load_balance: 0.2, reliability: 0.1}` inlined; note that the `load_balance`
weight multiplies the health score, exactly as in the source. -/
def scheduler_composite_score (a : Account) (accounts : List Account) : ℚ :=
  0.4 * calculate_cost_score a accounts +
  0.3 * calculate_performance_score a accounts +
  0.2 * calculate_health_score a accounts +
  0.1 * calculate_reliability_score a accounts

/-- The pool `sorted_accounts[:top_percent]` of
`IntelligentScheduler._intelligent_selection`: candidates in descending
composite-score order (the source keys its score dict by account id, so
candidate ids are assumed unique), truncated to `max(1, len(accounts) // 5)`
entries. -/
def intelligentPool (accounts : List Account) : List Account :=
  (sortKeyDesc (fun a => scheduler_composite_score a accounts) accounts).take
    (max 1 (accounts.length / 5))

/-- `IntelligentScheduler._intelligent_selection`. -/
def intelligent_selection (accounts : List Account) (rand : ℕ) : Option Account :=
  if accounts = [] then none
  else listChoice (intelligentPool accounts) rand

/-- `IntelligentScheduler._apply_selection_algorithm`; the final
`random.choice` branch is unreachable from `select_account` because
`_select_algorithm` only produces the three known names. -/
def apply_selection_algorithm (alg : String) (accounts : List Account)
    (s : SchedulerState) (rand : ℕ) : Option Account × SchedulerState :=
  if alg = "cost_first" then (cost_optimizer_select accounts, s)
  else if alg = "weighted_round_robin" then
    let r := wrr_select s.wrr accounts
    (r.1, { s with wrr := r.2 })
  else if alg = "intelligent" then (intelligent_selection accounts rand, s)
  else (listChoice accounts rand, s)

/-- `IntelligentScheduler._record_selection_metrics`: fold the elapsed
selection time into the running mean and stamp the chosen account's
`last_used` with the current time. -/
def record_selection_metrics (s : SchedulerState) (sel : Option Account)
    (selection_time now : ℚ) : Option Account × SchedulerState :=
  let total_time := s.avg_selection_time * ((s.total_selections : ℚ) - 1) +
    selection_time
  let s' := { s with avg_selection_time := total_time / (s.total_selections : ℚ) }
  match sel with
  | none => (none, s')
  | some a =>
    (some { a with metrics := { a.metrics with last_used := some now } }, s')

/-- `IntelligentScheduler.select_account`.  `now` is the wall-clock time used
for health/breaker checks and `last_used`, `elapsed` the measured selection
latency, `rand` the randomness seed.  The `raise`/`except` pair of the source
collapses to the empty-available branch: the fallback returns a uniform pick
from the refreshed original candidate list, bypassing the filters. -/
def select_account (s : SchedulerState) (accounts : List Account)
    (ctx : Option Context) (now elapsed : ℚ) (rand : ℕ) :
    Option Account × SchedulerState :=
  let f := schedFilter s accounts now
  let s2 := schedAfterFilter s accounts now
  match f.2.1 with
  | [] => (listChoice f.1 rand, s2)
  | [a] => (some a, s2)
  | b :: c :: rest =>
    let alg := select_algorithm ctx
    let s3 := bumpUsage s2 alg
    let q := apply_selection_algorithm alg (b :: c :: rest) s3 rand
    record_selection_metrics q.2 q.1 elapsed now

/-- `IntelligentScheduler.record_request_result`. -/
def record_request_result (s : SchedulerState) (id : String) (success : Bool)
    (response_time cost : ℚ) (error_type : Option String) (now : ℚ) :
    SchedulerState :=
  let s1 := { s with collector := record_request s.collector id response_time success cost }
  if success then { s1 with failureRec := mark_success s1.failureRec id }
  else
    match error_type with
    | none => s1
    | some et => { s1 with failureRec := handle_request_failure s1.failureRec id et now }

/-! ## Verification-harness definitions -/

/-- One argument tuple of `MetricsCollector.record_request`, used to quantify
over arbitrary recording histories. -/
structure Outcome where
  account_id : String
  response_time : ℚ
  success : Bool
  cost : ℚ

/-- Replay a history of recorded outcomes through the collector. -/
def applyOutcomes (s : MCState) : List Outcome → MCState
  | [] => s
  | e :: es =>
    applyOutcomes (record_request s e.account_id e.response_time e.success e.cost) es

/-- Breaker state with four prior generic failures on account `x`, as after
four `handle_request_failure` calls with an unclassified error kind. -/
def frFourFailures : FRState :=
  ⟨fun k => if k = "x" then 4 else 0, fun _ => 0, fun _ => none⟩

/-- The list of cost-per-request values of the candidates with at least one
request, exactly as built inside `calculate_cost_score`. -/
def costPerRequestList (all : List Account) : List ℚ :=
  (all.filter (fun acc => 0 < acc.metrics.daily_requests)).map
    (fun acc => acc.metrics.daily_cost / (acc.metrics.daily_requests : ℚ))

/-- Concrete account with a low cost per request (0.1). -/
def accCheap : Account :=
  { id := "cheap", name := "Cheap",
    metrics := { account_id := "cheap", daily_cost := 1, daily_requests := 10 } }

/-- Concrete account with a high cost per request (0.5). -/
def accDear : Account :=
  { id := "dear", name := "Dear",
    metrics := { account_id := "dear", daily_cost := 5, daily_requests := 10 } }

/-- The pool size demanded by the specification sentence for the
composite-intelligent strategy: the top `⌈count/5⌉` candidates, at least 1.
This follows the claim's words and is compared against the source-derived
`intelligentPool`. -/
def specTopCount (n : ℕ) : ℕ := max 1 ((n + 4) / 5)

/-- Six concrete active accounts, for exercising the intelligent pool. -/
def cl6 : List Account :=
  [{ id := "p1", name := "P1", metrics := { account_id := "p1" } },
   { id := "p2", name := "P2", metrics := { account_id := "p2" } },
   { id := "p3", name := "P3", metrics := { account_id := "p3" } },
   { id := "p4", name := "P4", metrics := { account_id := "p4" } },
   { id := "p5", name := "P5", metrics := { account_id := "p5" } },
   { id := "p6", name := "P6", metrics := { account_id := "p6" } }]

/-- Fresh weighted-round-robin state: every current and total weight 0. -/
def wrrZero : WRRState := ⟨fun _ => 0, fun _ => 0⟩

/-- Concrete active account used by the round-robin witness. -/
def accWa : Account :=
  { id := "wa", name := "WA", metrics := { account_id := "wa" } }

/-- Second concrete active account used by the round-robin witness. -/
def accWb : Account :=
  { id := "wb", name := "WB", metrics := { account_id := "wb" } }

/-- Breaker state with eleven prior generic failures on account `x`. -/
def frElevenFailures : FRState :=
  ⟨fun k => if k = "x" then 11 else 0, fun _ => 0, fun _ => none⟩

/-- An account whose current metrics fail the health thresholds (zero
success rate). -/
def accFailing : Account :=
  { id := "h", name := "H",
    metrics := { account_id := "h", success_rate := 0 } }

/-- Health-monitor state with a 30-second interval and a cached healthy
verdict for account `h` computed at time 0. -/
def hmCachedHealthy : HMState :=
  { check_interval := 30
    health_cache := fun k =>
      if k = "h" then some ⟨true, ⟨0, 1, 0, false⟩, 0⟩ else none }

/-- Collector holding one successful 100 ms request for account `m`. -/
def mcOneGood : MCState := record_request (initMC 100) "m" 100 true 0

/-- Collector holding one successful 100 ms request for each of `a`, `b`. -/
def mcTwoGood : MCState :=
  record_request (record_request (initMC 100) "a" 100 true 0) "b" 100 true 0

/-- Account `m` used for the single-survivor run. -/
def accM : Account := { id := "m", name := "M", metrics := { account_id := "m" } }

/-- Account `a` used for the two-survivor runs. -/
def accA2 : Account := { id := "a", name := "A2", metrics := { account_id := "a" } }

/-- Account `b` used for the two-survivor runs. -/
def accB2 : Account := { id := "b", name := "B2", metrics := { account_id := "b" } }

/-- `accA2` as refreshed from `mcTwoGood` during filtering. -/
def accA2r : Account :=
  { id := "a", name := "A2",
    metrics := { account_id := "a", daily_cost := 0, daily_requests := 1,
                 success_rate := 1, avg_response_time := 100,
                 requests_per_minute := 1 } }

/-- `accB2` as refreshed from `mcTwoGood` during filtering. -/
def accB2r : Account :=
  { id := "b", name := "B2",
    metrics := { account_id := "b", daily_cost := 0, daily_requests := 1,
                 success_rate := 1, avg_response_time := 100,
                 requests_per_minute := 1 } }

/-- Empty health monitor with the default 30-second interval. -/
def hmEmpty : HMState := ⟨30, fun _ => none⟩

/-- Scheduler state whose collector knows one good request for `m`. -/
def schedOne : SchedulerState :=
  { collector := mcOneGood, healthMon := hmEmpty, failureRec := initFR
    wrr := wrrZero, total_selections := 0, avg_selection_time := 0
    cache_hits := 0, algorithm_usage := fun _ => 0 }

/-- Scheduler state whose collector knows one good request each for `a`, `b`. -/
def schedTwo : SchedulerState :=
  { collector := mcTwoGood, healthMon := hmEmpty, failureRec := initFR
    wrr := wrrZero, total_selections := 0, avg_selection_time := 0
    cache_hits := 0, algorithm_usage := fun _ => 0 }

/-- Round-robin state in which every stored current weight is -100, as left
behind by earlier calls in which these accounts repeatedly won against a
heavier competitor. -/
def wrrNeg : WRRState := ⟨fun _ => -100, fun _ => 0⟩

/-- `schedTwo` with the deeply negative round-robin weights. -/
def schedNeg : SchedulerState :=
  { collector := mcTwoGood, healthMon := hmEmpty, failureRec := initFR
    wrr := wrrNeg, total_selections := 0, avg_selection_time := 0
    cache_hits := 0, algorithm_usage := fun _ => 0 }

/-- Health monitor whose cache holds a still-fresh healthy verdict (stamped
at time 0) for every account id. -/
def hmStale : HMState := ⟨30, fun _ => some ⟨true, ⟨0, 1, 0, false⟩, 0⟩⟩

/-- Scheduler state with the stale-healthy cache and an empty collector. -/
def schedStale : SchedulerState :=
  { collector := initMC 100, healthMon := hmStale, failureRec := initFR
    wrr := wrrZero, total_selections := 0, avg_selection_time := 0
    cache_hits := 0, algorithm_usage := fun _ => 0 }

/-- Scheduler state with an empty collector and empty caches: every fresh
account fails the 95 percent success-rate health threshold. -/
def schedEmpty : SchedulerState :=
  { collector := initMC 100, healthMon := hmEmpty, failureRec := initFR
    wrr := wrrZero, total_selections := 0, avg_selection_time := 0
    cache_hits := 0, algorithm_usage := fun _ => 0 }

/-- Inactive account `c` (admitted only through the stale health cache). -/
def accIna : Account :=
  { id := "c", name := "C", status := "inactive",
    metrics := { account_id := "c" } }

/-- Inactive account `d` (admitted only through the stale health cache). -/
def accInb : Account :=
  { id := "d", name := "D", status := "inactive",
    metrics := { account_id := "d" } }

/-! ## Theorems -/

/-- `appendBounded` never leaves more than `w` entries in the window. -/
theorem appendBounded_length_le (w : ℕ) (xs : List ℚ) (x : ℚ) :
    (appendBounded w xs x).length ≤ w := by
  simp only [appendBounded]
  split
  · next h => simp only [List.length_drop]; omega
  · next h => omega

/-- `record_request` keeps every response-time window within the capacity. -/
theorem record_request_window_le (s : MCState) (e : Outcome) (id : String)
    (h : (s.response_times id).length ≤ s.window_size) :
    ((record_request s e.account_id e.response_time e.success e.cost).response_times
        id).length ≤
      (record_request s e.account_id e.response_time e.success e.cost).window_size := by
  unfold record_request
  by_cases hid : id = e.account_id
  · simp only [hid, if_pos rfl]
    exact appendBounded_length_le _ _ _
  · simpa [hid] using h

/-- Any state reached by replaying outcomes keeps every window within the
capacity. -/
theorem applyOutcomes_window_le (es : List Outcome) (s : MCState)
    (h : ∀ id, (s.response_times id).length ≤ s.window_size) :
    ∀ id, ((applyOutcomes s es).response_times id).length ≤
      (applyOutcomes s es).window_size := by
  induction es generalizing s with
  | nil => exact h
  | cons e es ih =>
    exact ih _ (fun id => record_request_window_le s e id (h id))

/-- C10: with the default window capacity 100, after any history of recorded
outcomes the snapshot's requests-per-minute equals its daily-request count:
the response-time window holds at most 100 entries, so the divisor
`max 1 (count * 0.01)` is 1. -/
theorem rpm_equals_daily_requests (es : List Outcome) (id : String) :
    ((applyOutcomes (initMC 100) es).response_times id).length ≤ 100 ∧
    (get_metrics (applyOutcomes (initMC 100) es) id).requests_per_minute =
      ((get_metrics (applyOutcomes (initMC 100) es) id).daily_requests : ℚ) := by
  have hw : (applyOutcomes (initMC 100) es).window_size = 100 := by
    have : ∀ t s, (applyOutcomes s t).window_size = s.window_size := by
      intro t
      induction t with
      | nil => intro s; rfl
      | cons e es ih => intro s; exact ih _
    simpa using this es (initMC 100)
  have hlen : ((applyOutcomes (initMC 100) es).response_times id).length ≤ 100 := by
    have := applyOutcomes_window_le es (initMC 100) (by intro id; simp [initMC])
    simpa [hw] using this id
  refine ⟨hlen, ?_⟩
  simp only [get_metrics]
  have hq : (((applyOutcomes (initMC 100) es).response_times id).length : ℚ) * 0.01 ≤ 1 := by
    have h100 : (((applyOutcomes (initMC 100) es).response_times id).length : ℚ) ≤ 100 := by
      exact_mod_cast hlen
    rw [show (0.01 : ℚ) = 1/100 by norm_num]
    linarith
  rw [max_eq_left hq]
  simp

/-- C4: a generic (unclassified) failure always increments the failure count;
below five accumulated failures it leaves the breaker map untouched (so an
account with no breaker record stays usable at every time), and from the
fifth failure on it opens the breaker with backoff
`min(300 * 2^(failureCount - 5), 3600)` seconds from now. -/
theorem generic_failure_policy (s : FRState) (id kind : String) (t : ℚ)
    (hk1 : kind ≠ "rate_limit") (hk2 : kind ≠ "quota_exceeded")
    (hk3 : kind ≠ "auth_error") (hk4 : kind ≠ "invalid_token") :
    (handle_request_failure s id kind t).failure_counts id =
      s.failure_counts id + 1 ∧
    ((handle_request_failure s id kind t).failure_counts id < 5 →
      (handle_request_failure s id kind t).circuit_breaker = s.circuit_breaker) ∧
    ((handle_request_failure s id kind t).failure_counts id < 5 →
      s.circuit_breaker id = none → ∀ now,
      can_use_account (handle_request_failure s id kind t) id now =
        (true, handle_request_failure s id kind t)) ∧
    (5 ≤ (handle_request_failure s id kind t).failure_counts id →
      (handle_request_failure s id kind t).circuit_breaker id =
        some ⟨"open",
          t + ((min (300 * 2 ^
              ((handle_request_failure s id kind t).failure_counts id - 5)) 3600 : ℕ) : ℚ),
          "circuit_breaker"⟩) := by
  have hor1 : ¬(kind = "rate_limit" ∨ kind = "quota_exceeded") := by tauto
  have hor2 : ¬(kind = "auth_error" ∨ kind = "invalid_token") := by tauto
  have hfc : (handle_request_failure s id kind t).failure_counts id =
      s.failure_counts id + 1 := by
    simp only [handle_request_failure, if_neg hor1, if_neg hor2,
      activate_circuit_breaker]
    by_cases h5 : 5 ≤ s.failure_counts id + 1
    · simp [h5]
    · simp [h5]
  have hcb : s.failure_counts id + 1 < 5 →
      (handle_request_failure s id kind t).circuit_breaker = s.circuit_breaker := by
    intro hlt
    have h5 : ¬ (5 ≤ s.failure_counts id + 1) := by omega
    simp [handle_request_failure, if_neg hor1, if_neg hor2,
      activate_circuit_breaker, h5]
  refine ⟨hfc, ?_, ?_, ?_⟩
  · intro hlt
    rw [hfc] at hlt
    exact hcb hlt
  · intro hlt hnone now
    rw [hfc] at hlt
    have hb := hcb hlt
    simp only [can_use_account, hb, hnone]
  · intro h5
    rw [hfc] at h5
    rw [hfc]
    simp [handle_request_failure, if_neg hor1, if_neg hor2,
      activate_circuit_breaker, h5]

/-- Witness for C4: on the fifth generic failure the breaker opens for
exactly 300 seconds, and on the twelfth the backoff clamps to 3600. -/
theorem generic_failure_policy_witness :
    (handle_request_failure frFourFailures "x" "boom" 0).failure_counts "x" = 5 ∧
    (handle_request_failure frFourFailures "x" "boom" 0).circuit_breaker "x" =
      some ⟨"open", (300 : ℚ), "circuit_breaker"⟩ ∧
    (handle_request_failure frElevenFailures "x" "boom" 0).failure_counts "x" = 12 ∧
    (handle_request_failure frElevenFailures "x" "boom" 0).circuit_breaker "x" =
      some ⟨"open", (3600 : ℚ), "circuit_breaker"⟩ := by
  obtain ⟨h1, _h2, _h3, h4⟩ :=
    generic_failure_policy frFourFailures "x" "boom" 0
      (by decide) (by decide) (by decide) (by decide)
  obtain ⟨h1b, _h2b, _h3b, h4b⟩ :=
    generic_failure_policy frElevenFailures "x" "boom" 0
      (by decide) (by decide) (by decide) (by decide)
  have hfc : (handle_request_failure frFourFailures "x" "boom" 0).failure_counts
      "x" = 5 := by
    rw [h1]; norm_num [frFourFailures]
  have hfcb : (handle_request_failure frElevenFailures "x" "boom" 0).failure_counts
      "x" = 12 := by
    rw [h1b]; norm_num [frElevenFailures]
  refine ⟨hfc, ?_, hfcb, ?_⟩
  · have := h4 (by rw [hfc])
    rw [hfc] at this
    rw [this]
    norm_num
  · have := h4b (by rw [hfcb]; norm_num)
    rw [hfcb] at this
    rw [this]
    norm_num

/-- C5: one `rate_limit` failure at time `t0` opens the breaker until
`t0 + 300`: every check strictly before that instant refuses the account and
leaves the state unchanged; the first check at or after it flips the record
to half-open and admits the account, and every further check of the
half-open record admits it without changing state. -/
theorem rate_limit_breaker_timeline (s : FRState) (id : String) (t0 : ℚ) :
    (handle_request_failure s id "rate_limit" t0).circuit_breaker id =
      some ⟨"open", t0 + 300, "temporary"⟩ ∧
    (∀ now, now < t0 + 300 →
      can_use_account (handle_request_failure s id "rate_limit" t0) id now =
        (false, handle_request_failure s id "rate_limit" t0)) ∧
    (∀ now, t0 + 300 ≤ now →
      (can_use_account (handle_request_failure s id "rate_limit" t0) id now).1 =
        true ∧
      (can_use_account (handle_request_failure s id "rate_limit" t0) id
          now).2.circuit_breaker id = some ⟨"half_open", t0 + 300, "temporary"⟩ ∧
      (∀ now2,
        can_use_account
            (can_use_account (handle_request_failure s id "rate_limit" t0) id
              now).2 id now2 =
          (true,
           (can_use_account (handle_request_failure s id "rate_limit" t0) id
             now).2))) := by
  have hrec : (handle_request_failure s id "rate_limit" t0).circuit_breaker id =
      some ⟨"open", t0 + 300, "temporary"⟩ := by
    simp [handle_request_failure, mark_temporary_failure]
  refine ⟨hrec, ?_, ?_⟩
  · intro now hnow
    have hnot : ¬ ((t0 + 300 : ℚ) ≤ now) := not_le.mpr hnow
    simp [can_use_account, hrec, hnot]
  · intro now hnow
    have h1 : (can_use_account (handle_request_failure s id "rate_limit" t0) id
        now).1 = true := by
      simp [can_use_account, hrec, hnow]
    have h2 : (can_use_account (handle_request_failure s id "rate_limit" t0) id
        now).2.circuit_breaker id = some ⟨"half_open", t0 + 300, "temporary"⟩ := by
      simp [can_use_account, hrec, hnow]
    refine ⟨h1, h2, ?_⟩
    intro now2
    set s2 := (can_use_account (handle_request_failure s id "rate_limit" t0) id
      now).2 with hs2
    simp [can_use_account, h2]

/-- Witness for C5: after one `rate_limit` failure at time 0 starting from a
clean breaker state, the account is refused at time 299 but admitted at time
300, where the record has become half-open; it is still admitted at time 0
afterwards. -/
theorem rate_limit_breaker_timeline_witness :
    (can_use_account (handle_request_failure initFR "x" "rate_limit" 0) "x"
        299).1 = false ∧
    (can_use_account (handle_request_failure initFR "x" "rate_limit" 0) "x"
        300).1 = true ∧
    (can_use_account
        (can_use_account (handle_request_failure initFR "x" "rate_limit" 0) "x"
          300).2 "x" 0).1 = true := by
  obtain ⟨_hrec, hbefore, hafter⟩ :=
    rate_limit_breaker_timeline initFR "x" (0 : ℚ)
  obtain ⟨h1, _h2, h3⟩ := hafter 300 (by norm_num)
  refine ⟨?_, h1, ?_⟩
  · rw [hbefore 299 (by norm_num)]
  · rw [h3 0]

/-- C6: a health verdict cached at time `e.timestamp` is returned unchanged
by every check less than `check_interval` seconds later — even for an
account value with the same id but different metrics — and a check at or
past expiry recomputes the verdict from the current account metrics and
restamps the cache. -/
theorem health_cache_ttl (s : HMState) (a a' : Account) (e : HealthCacheEntry)
    (now : ℚ) (hid : a'.id = a.id) (hc : s.health_cache a.id = some e) :
    (now - e.timestamp < s.check_interval →
      check_account_health s a' now = (e.healthy, s)) ∧
    (s.check_interval ≤ now - e.timestamp →
      check_account_health s a' now =
        (health_verdict a',
         { s with health_cache := fun k =>
             if k = a.id then
               some ⟨health_verdict a', measure_health_metrics a', now⟩
             else s.health_cache k })) := by
  constructor
  · intro h
    simp [check_account_health, hid, hc, h]
  · intro h
    have hnot : ¬ (now - e.timestamp < s.check_interval) := not_lt.mpr h
    simp [check_account_health, hid, hc, hnot]

/-- Witness for C6: a cache entry stating healthy at time 0 with a 30-second
interval is returned verbatim at time 29 for an account whose current
metrics are failing; at time 30 the verdict is recomputed from those metrics
and flips to unhealthy. -/
theorem health_cache_ttl_witness :
    (check_account_health hmCachedHealthy accFailing 29).1 = true ∧
    (check_account_health hmCachedHealthy accFailing 30).1 = false := by
  obtain ⟨hhit, hmiss⟩ :=
    health_cache_ttl hmCachedHealthy accFailing accFailing
      ⟨true, ⟨0, 1, 0, false⟩, 0⟩ 29 rfl rfl
  obtain ⟨hhit30, hmiss30⟩ :=
    health_cache_ttl hmCachedHealthy accFailing accFailing
      ⟨true, ⟨0, 1, 0, false⟩, 0⟩ 30 rfl rfl
  constructor
  · rw [hhit (by norm_num [hmCachedHealthy])]
  · rw [hmiss30 (by norm_num [hmCachedHealthy])]
    norm_num [health_verdict, measure_health_metrics, accFailing]

/-- `normalize` always lands in the unit interval. -/
theorem normalize_mem (v lo hi : ℚ) :
    0 ≤ normalize v lo hi ∧ normalize v lo hi ≤ 1 := by
  unfold normalize
  split_ifs
  · norm_num
  · constructor
    · exact le_max_left 0 _
    · exact max_le (by norm_num) (min_le_left 1 _)

/-- `1 - normalize` also lands in the unit interval. -/
theorem one_sub_normalize_mem (v lo hi : ℚ) :
    0 ≤ 1 - normalize v lo hi ∧ 1 - normalize v lo hi ≤ 1 := by
  obtain ⟨h0, h1⟩ := normalize_mem v lo hi
  constructor <;> linarith

/-- `normalize` is monotone in its value argument whenever `lo ≤ hi`. -/
theorem normalize_mono (v v' lo hi : ℚ) (hlh : lo ≤ hi) (hv : v ≤ v') :
    normalize v lo hi ≤ normalize v' lo hi := by
  unfold normalize
  split_ifs with h
  · exact le_refl _
  · have hlt : lo < hi := lt_of_le_of_ne hlh (fun he => h he.symm)
    have hd : 0 < hi - lo := by linarith
    have hdiv : (v - lo) / (hi - lo) ≤ (v' - lo) / (hi - lo) :=
      (div_le_div_iff_of_pos_right hd).mpr (by linarith)
    exact max_le_max (le_refl 0) (min_le_min (le_refl 1) hdiv)

/-- The minimum of a non-empty list is at most its maximum. -/
theorem listMin_le_listMax (l : List ℚ) (h : l ≠ []) : listMin l ≤ listMax l := by
  match l with
  | [x] => simp [listMin, listMax]
  | x :: y :: t =>
    calc listMin (x :: y :: t) ≤ x := by simp [listMin]
    _ ≤ listMax (x :: y :: t) := by simp [listMax]

/-- A weighted pair with weights 0.6/0.4 of unit-interval values stays in the
unit interval. -/
theorem weighted2_mem (x y : ℚ) (hx0 : 0 ≤ x) (hx1 : x ≤ 1) (hy0 : 0 ≤ y)
    (hy1 : y ≤ 1) : 0 ≤ 0.6 * x + 0.4 * y ∧ 0.6 * x + 0.4 * y ≤ 1 := by
  constructor <;> nlinarith

/-- A weighted triple with weights 0.4/0.4/0.2 of unit-interval values stays
in the unit interval. -/
theorem weighted3_mem (x y z : ℚ) (hx0 : 0 ≤ x) (hx1 : x ≤ 1) (hy0 : 0 ≤ y)
    (hy1 : y ≤ 1) (hz0 : 0 ≤ z) (hz1 : z ≤ 1) :
    0 ≤ 0.4 * x + 0.4 * y + 0.2 * z ∧ 0.4 * x + 0.4 * y + 0.2 * z ≤ 1 := by
  constructor <;> nlinarith

/-- The cost sub-score always lands in the unit interval. -/
theorem cost_score_mem (a : Account) (all : List Account) :
    0 ≤ calculate_cost_score a all ∧ calculate_cost_score a all ≤ 1 := by
  simp only [calculate_cost_score]
  split_ifs
  · norm_num
  · norm_num
  · exact one_sub_normalize_mem _ _ _

/-- The health sub-score lands in the unit interval when the account's
success rate does. -/
theorem health_score_mem (a : Account) (all : List Account)
    (hsr0 : 0 ≤ a.metrics.success_rate) (hsr1 : a.metrics.success_rate ≤ 1) :
    0 ≤ calculate_health_score a all ∧ calculate_health_score a all ≤ 1 := by
  simp only [calculate_health_score]
  split_ifs
  · exact weighted3_mem _ _ _ (by norm_num) (by norm_num) hsr0 hsr1
      (by norm_num) (by norm_num)
  · exact weighted3_mem _ _ _ (by norm_num) (by norm_num) hsr0 hsr1
      (by norm_num) (by norm_num)
  · exact weighted3_mem _ _ _ (one_sub_normalize_mem _ _ _).1
      (one_sub_normalize_mem _ _ _).2 hsr0 hsr1 (by norm_num) (by norm_num)
  · exact weighted3_mem _ _ _ (one_sub_normalize_mem _ _ _).1
      (one_sub_normalize_mem _ _ _).2 hsr0 hsr1 (by norm_num) (by norm_num)

/-- The performance sub-score always lands in the unit interval. -/
theorem performance_score_mem (a : Account) (all : List Account) :
    0 ≤ calculate_performance_score a all ∧
      calculate_performance_score a all ≤ 1 := by
  simp only [calculate_performance_score]
  split_ifs
  · exact weighted2_mem _ _ (normalize_mem _ _ _).1 (normalize_mem _ _ _).2
      (one_sub_normalize_mem _ _ _).1 (one_sub_normalize_mem _ _ _).2
  · exact weighted2_mem _ _ (normalize_mem _ _ _).1 (normalize_mem _ _ _).2
      (by norm_num) (by norm_num)
  · exact weighted2_mem _ _ (by norm_num) (by norm_num)
      (one_sub_normalize_mem _ _ _).1 (one_sub_normalize_mem _ _ _).2
  · exact weighted2_mem _ _ (by norm_num) (by norm_num) (by norm_num) (by norm_num)

/-- The uptime ratio `uptime / max 1 total` lies in the unit interval when
`0 < uptime ≤ total`. -/
theorem uptime_ratio_mem (up tot : ℚ) (hup : 0 < up) (htot : up ≤ tot) :
    0 ≤ up / max 1 tot ∧ up / max 1 tot ≤ 1 := by
  have hpos : (0 : ℚ) < max 1 tot := lt_of_lt_of_le one_pos (le_max_left 1 tot)
  constructor
  · exact div_nonneg (le_of_lt hup) (le_of_lt hpos)
  · rw [div_le_one hpos]
    exact le_trans htot (le_max_right 1 tot)

/-- The reliability sub-score lands in the unit interval when
`0 < uptimeHours ≤ totalHours`. -/
theorem reliability_score_mem (a : Account) (all : List Account)
    (hup : 0 < a.metrics.uptime_hours)
    (htot : a.metrics.uptime_hours ≤ a.metrics.total_hours) :
    0 ≤ calculate_reliability_score a all ∧
      calculate_reliability_score a all ≤ 1 := by
  obtain ⟨hu0, hu1⟩ := uptime_ratio_mem _ _ hup htot
  simp only [calculate_reliability_score]
  split_ifs
  · exact weighted2_mem _ _ hu0 hu1 (by norm_num) (by norm_num)
  · exact weighted2_mem _ _ hu0 hu1 (one_sub_normalize_mem _ _ _).1
      (one_sub_normalize_mem _ _ _).2

/-- C8: under the data-model preconditions on the scored account, the
composite score `0.4 cost + 0.3 health + 0.2 performance + 0.1 reliability`
lies in the unit interval. -/
theorem composite_score_in_unit_interval (a : Account) (all : List Account)
    (hsr0 : 0 ≤ a.metrics.success_rate) (hsr1 : a.metrics.success_rate ≤ 1)
    (hup : 0 < a.metrics.uptime_hours)
    (htot : a.metrics.uptime_hours ≤ a.metrics.total_hours)
    (hrt : 0 ≤ a.metrics.avg_response_time)
    (hrec : 0 ≤ a.metrics.recovery_time_avg)
    (hcost : 0 ≤ a.metrics.daily_cost) :
    0 ≤ calculate_account_score a all ∧ calculate_account_score a all ≤ 1 := by
  obtain ⟨hc0, hc1⟩ := cost_score_mem a all
  obtain ⟨hh0, hh1⟩ := health_score_mem a all hsr0 hsr1
  obtain ⟨hp0, hp1⟩ := performance_score_mem a all
  obtain ⟨hr0, hr1⟩ := reliability_score_mem a all hup htot
  unfold calculate_account_score
  constructor <;> nlinarith

/-- C7: the cost sub-score is the neutral 0.5 for an account without
requests, and 0.5 when fewer than two candidates have requests; otherwise it
is one minus the normalized own cost per request over the candidates with
requests, so a strictly cheaper-per-request account never scores lower. -/
theorem cost_score_spec (a b : Account) (all : List Account) :
    (a.metrics.daily_requests = 0 → calculate_cost_score a all = 1/2) ∧
    ((costPerRequestList all).length < 2 → calculate_cost_score a all = 1/2) ∧
    (a.metrics.daily_requests ≠ 0 → 2 ≤ (costPerRequestList all).length →
      calculate_cost_score a all =
        1 - normalize (a.metrics.daily_cost / (a.metrics.daily_requests : ℚ))
          (listMin (costPerRequestList all)) (listMax (costPerRequestList all))) ∧
    (0 < a.metrics.daily_requests → 0 < b.metrics.daily_requests →
      a.metrics.daily_cost / (a.metrics.daily_requests : ℚ) <
        b.metrics.daily_cost / (b.metrics.daily_requests : ℚ) →
      calculate_cost_score b all ≤ calculate_cost_score a all) := by
  refine ⟨?_, ?_, ?_, ?_⟩
  · intro h
    simp [calculate_cost_score, h]
  · intro h
    by_cases hz : a.metrics.daily_requests = 0
    · simp [calculate_cost_score, hz]
    · simp only [calculate_cost_score, costPerRequestList] at h ⊢
      rw [if_neg hz, if_pos h]
  · intro hne hlen
    simp only [calculate_cost_score, costPerRequestList] at hlen ⊢
    rw [if_neg hne, if_neg (by omega)]
  · intro ha hb hlt
    have hane : a.metrics.daily_requests ≠ 0 := by omega
    have hbne : b.metrics.daily_requests ≠ 0 := by omega
    by_cases hlen : (costPerRequestList all).length < 2
    · have h2 : (costPerRequestList all).length < 2 := hlen
      simp only [calculate_cost_score, costPerRequestList] at h2 ⊢
      rw [if_neg hane, if_neg hbne, if_pos h2, if_pos h2]
    · push_neg at hlen
      have hnil : costPerRequestList all ≠ [] := by
        intro hnilEq
        rw [hnilEq] at hlen
        simp at hlen
      have hmm := listMin_le_listMax (costPerRequestList all) hnil
      have hmono := normalize_mono
        (a.metrics.daily_cost / (a.metrics.daily_requests : ℚ))
        (b.metrics.daily_cost / (b.metrics.daily_requests : ℚ))
        (listMin (costPerRequestList all)) (listMax (costPerRequestList all))
        hmm (le_of_lt hlt)
      have hlen2 : ¬ ((costPerRequestList all).length < 2) := by omega
      simp only [calculate_cost_score, costPerRequestList] at hlen2 ⊢
      rw [if_neg hane, if_neg hbne, if_neg hlen2, if_neg hlen2]
      simp only [costPerRequestList] at hmono
      linarith

/-- Witness for C7: in a concrete two-account pool the strictly
cheaper-per-request account scores at least as high, and an account with no
requests scores the neutral 0.5. -/
theorem cost_score_spec_witness :
    calculate_cost_score accDear [accCheap, accDear] ≤
      calculate_cost_score accCheap [accCheap, accDear] ∧
    calculate_cost_score accFailing [accCheap, accDear] = 1/2 := by
  constructor
  · exact (cost_score_spec accCheap accDear [accCheap, accDear]).2.2.2
      (by norm_num [accCheap]) (by norm_num [accDear])
      (by norm_num [accCheap, accDear])
  · exact (cost_score_spec accFailing accFailing [accCheap, accDear]).1
      (by norm_num [accFailing])

/-- Witness for C8: the composite score of a concrete account within a
concrete pool lies in the unit interval. -/
theorem composite_score_in_unit_interval_witness :
    0 ≤ calculate_account_score accFailing [accFailing] ∧
      calculate_account_score accFailing [accFailing] ≤ 1 :=
  composite_score_in_unit_interval accFailing [accFailing]
    (by norm_num [accFailing]) (by norm_num [accFailing])
    (by norm_num [accFailing]) (by norm_num [accFailing])
    (by norm_num [accFailing]) (by norm_num [accFailing])
    (by norm_num [accFailing])

/-- The account selected by the scan comes from the scanned list (or was the
initial candidate). -/
theorem wrrScan_sel_mem (tw : String → ℤ) (l : List Account) :
    ∀ (cw : String → ℤ) (m : ℤ) (sel : Option Account) (a : Account),
      (wrrScan tw l cw m sel).2.2 = some a → a ∈ l ∨ sel = some a := by
  induction l with
  | nil => intro cw m sel a h; exact Or.inr h
  | cons b rest ih =>
    intro cw m sel a h
    simp only [wrrScan] at h
    split_ifs at h
    · rcases ih _ _ _ _ h with hmem | hsome
      · exact Or.inl (List.mem_cons_of_mem b hmem)
      · exact Or.inl (by simp only [Option.some.injEq] at hsome; rw [← hsome]; exact List.mem_cons_self b rest)
    · rcases ih _ _ _ _ h with hmem | hsome
      · exact Or.inl (List.mem_cons_of_mem b hmem)
      · exact Or.inr hsome

/-- The scan leaves current weights of ids outside the scanned list
untouched. -/
theorem wrrScan_cw_not_mem (tw : String → ℤ) (l : List Account) :
    ∀ (cw : String → ℤ) (m : ℤ) (sel : Option Account) (id : String),
      id ∉ l.map (fun a => a.id) → (wrrScan tw l cw m sel).1 id = cw id := by
  induction l with
  | nil => intro cw m sel id _; rfl
  | cons b rest ih =>
    intro cw m sel id hid
    simp only [List.map_cons, List.mem_cons, not_or] at hid
    obtain ⟨hid1, hid2⟩ := hid
    simp only [wrrScan]
    split_ifs
    · rw [ih _ _ _ _ hid2]; simp [hid1]
    · rw [ih _ _ _ _ hid2]; simp [hid1]

/-- On a duplicate-free candidate list the scan adds exactly the total
weight to each candidate's current weight. -/
theorem wrrScan_cw_mem (tw : String → ℤ) (l : List Account) :
    ∀ (cw : String → ℤ) (m : ℤ) (sel : Option Account),
      (l.map (fun a => a.id)).Nodup →
      ∀ b ∈ l, (wrrScan tw l cw m sel).1 b.id = cw b.id + tw b.id := by
  induction l with
  | nil => intro cw m sel _ b hb; cases hb
  | cons a rest ih =>
    intro cw m sel hnd b hb
    simp only [List.map_cons, List.nodup_cons] at hnd
    obtain ⟨hna, hnd2⟩ := hnd
    rcases List.mem_cons.mp hb with hba | hbr
    · subst hba
      simp only [wrrScan]
      split_ifs
      · rw [wrrScan_cw_not_mem tw rest _ _ _ _ hna]; simp
      · rw [wrrScan_cw_not_mem tw rest _ _ _ _ hna]; simp
    · have hbne : b.id ≠ a.id := by
        intro he
        exact hna (he ▸ List.mem_map_of_mem (fun x => x.id) hbr)
      simp only [wrrScan]
      split_ifs
      · rw [ih _ _ _ hnd2 b hbr]; simp [hbne]
      · rw [ih _ _ _ hnd2 b hbr]; simp [hbne]

/-- Sums of pointwise-added maps split. -/
theorem sum_map_add (l : List Account) (f g : Account → ℤ) :
    (l.map (fun a => f a + g a)).sum = (l.map f).sum + (l.map g).sum := by
  induction l with
  | nil => simp
  | cons a rest ih => simp only [List.map_cons, List.sum_cons, ih]; ring

/-- Subtracting `S` at the winner's id (present exactly once) lowers the sum
by exactly `S`. -/
theorem sum_map_sub_winner (l : List Account) (x : String → ℤ) (S : ℤ)
    (w : Account) (hnd : (l.map (fun a => a.id)).Nodup)
    (hw : w.id ∈ l.map (fun a => a.id)) :
    (l.map (fun a => if a.id = w.id then x a.id - S else x a.id)).sum =
      (l.map (fun a => x a.id)).sum - S := by
  induction l with
  | nil => cases hw
  | cons a rest ih =>
    simp only [List.map_cons, List.nodup_cons] at hnd
    obtain ⟨hna, hnd2⟩ := hnd
    rcases List.mem_cons.mp hw with haw | hrw
    · have haw' : a.id = w.id := haw.symm
      have hrest : rest.map (fun b => if b.id = w.id then x b.id - S else x b.id) =
          rest.map (fun b => x b.id) := by
        apply List.map_congr_left
        intro b hb
        have hbne : b.id ≠ w.id := by
          intro he
          apply hna
          rw [haw', ← he]
          exact List.mem_map_of_mem (fun y => y.id) hb
        simp [hbne]
      simp only [List.map_cons, List.sum_cons, hrest, if_pos haw']
      ring
    · have hanw : a.id ≠ w.id := by
        intro he
        exact hna (he ▸ hrw)
      simp only [List.map_cons, List.sum_cons, if_neg hanw, ih hnd2 hrw]
      ring

/-- C9: whenever `wrr_select` returns an account on a duplicate-free
candidate list, the sum of current weights over the active candidates is
unchanged: each candidate gains its total weight and the winner loses the
sum of all total weights. -/
theorem wrr_select_preserves_weight_sum (s : WRRState) (accounts : List Account)
    (w : Account) (s' : WRRState)
    (hnd : (accounts.map (fun a => a.id)).Nodup)
    (hsel : wrr_select s accounts = (some w, s')) :
    ((accounts.filter (fun acc => acc.status = "active")).map
        (fun a => s'.current_weights a.id)).sum =
      ((accounts.filter (fun acc => acc.status = "active")).map
        (fun a => s.current_weights a.id)).sum := by
  have hndh : (((accounts.filter (fun acc => acc.status = "active")).map
      (fun a => a.id)).Nodup) :=
    hnd.sublist ((List.filter_sublist accounts).map (fun a => a.id))
  by_cases hacc : accounts = []
  · rw [wrr_select, if_pos hacc] at hsel
    simp at hsel
  · rw [wrr_select, if_neg hacc] at hsel
    simp only at hsel
    by_cases hh : accounts.filter (fun acc => acc.status = "active") = []
    · rw [if_pos hh] at hsel
      simp at hsel
    · rw [if_neg hh] at hsel
      rcases hmatch : (wrrScan (wrrUpdateTotals
          (accounts.filter (fun acc => acc.status = "active")) s.total_weights)
          (accounts.filter (fun acc => acc.status = "active"))
          s.current_weights (-1) none).2.2 with _ | w'
      · rw [hmatch] at hsel
        simp at hsel
      · rw [hmatch] at hsel
        simp only [Prod.mk.injEq, Option.some.injEq] at hsel
        obtain ⟨hww, hs'⟩ := hsel
        subst hs'
        have hwmem : w' ∈ accounts.filter (fun acc => acc.status = "active") := by
          rcases wrrScan_sel_mem _ _ _ _ _ _ hmatch with hmem | hnone
          · exact hmem
          · cases hnone
        have hwid : w'.id ∈ (accounts.filter
            (fun acc => acc.status = "active")).map (fun a => a.id) :=
          List.mem_map_of_mem (fun a => a.id) hwmem
        dsimp only
        rw [sum_map_sub_winner _ _ _ _ hndh hwid]
        have hscan : ((accounts.filter (fun acc => acc.status = "active")).map
            (fun a => (wrrScan (wrrUpdateTotals
              (accounts.filter (fun acc => acc.status = "active")) s.total_weights)
              (accounts.filter (fun acc => acc.status = "active"))
              s.current_weights (-1) none).1 a.id)).sum =
            ((accounts.filter (fun acc => acc.status = "active")).map
              (fun a => s.current_weights a.id +
                wrrUpdateTotals (accounts.filter (fun acc => acc.status = "active"))
                  s.total_weights a.id)).sum := by
          apply congrArg
          apply List.map_congr_left
          intro b hb
          exact wrrScan_cw_mem _ _ _ _ _ hndh b hb
        rw [hscan, sum_map_add]
        ring

/-- Witness for C9: a concrete round-robin call from the all-zero state
returns an account and leaves the current-weight sum over the active
candidates unchanged. -/
theorem wrr_select_preserves_weight_sum_witness :
    (([accWa, accWb].filter (fun acc => acc.status = "active")).map
        (fun a => (wrr_select wrrZero [accWa, accWb]).2.current_weights a.id)).sum =
      (([accWa, accWb].filter (fun acc => acc.status = "active")).map
        (fun a => wrrZero.current_weights a.id)).sum := by
  apply wrr_select_preserves_weight_sum wrrZero [accWa, accWb] accWa
      (wrr_select wrrZero [accWa, accWb]).2
  · simp [accWa, accWb]
  · have h1 : (wrr_select wrrZero [accWa, accWb]).1 = some accWa := by
      norm_num [wrr_select, wrrUpdateTotals, wrrScan, truncInt,
        calculate_account_score, calculate_cost_score, calculate_health_score,
        calculate_performance_score, calculate_reliability_score, normalize,
        listMin, listMax, accWa, accWb, wrrZero, List.filter, List.cons_ne_nil]
      simp
    rw [← h1]

/-- Stable descending insertion grows the length by one. -/
theorem insertKeyDesc_length (key : α → ℚ) (a : α) (l : List α) :
    (insertKeyDesc key a l).length = l.length + 1 := by
  induction l with
  | nil => rfl
  | cons b bs ih =>
    simp only [insertKeyDesc]
    split_ifs
    · simp
    · simp [ih]

/-- The stable descending sort preserves length. -/
theorem sortKeyDesc_length (key : α → ℚ) (l : List α) :
    (sortKeyDesc key l).length = l.length := by
  induction l with
  | nil => rfl
  | cons a as ih => simp [sortKeyDesc, insertKeyDesc_length, ih]

/-- Members of an insertion are the inserted element or prior members. -/
theorem insertKeyDesc_mem (key : α → ℚ) (a b : α) (l : List α)
    (h : b ∈ insertKeyDesc key a l) : b = a ∨ b ∈ l := by
  induction l with
  | nil => simpa [insertKeyDesc] using h
  | cons c cs ih =>
    simp only [insertKeyDesc] at h
    split_ifs at h
    · rcases List.mem_cons.mp h with h1 | h1
      · exact Or.inl h1
      · exact Or.inr h1
    · rcases List.mem_cons.mp h with h1 | h1
      · exact Or.inr (h1 ▸ List.mem_cons_self c cs)
      · rcases ih h1 with h2 | h2
        · exact Or.inl h2
        · exact Or.inr (List.mem_cons_of_mem c h2)

/-- Insertion into a descending-sorted list keeps it descending-sorted. -/
theorem insertKeyDesc_pairwise (key : α → ℚ) (a : α) (l : List α)
    (h : l.Pairwise (fun x y => key y ≤ key x)) :
    (insertKeyDesc key a l).Pairwise (fun x y => key y ≤ key x) := by
  induction l with
  | nil => simp [insertKeyDesc]
  | cons b bs ih =>
    rcases List.pairwise_cons.mp h with ⟨hb, hbs⟩
    simp only [insertKeyDesc]
    split_ifs with hle
    · refine List.pairwise_cons.mpr ⟨?_, h⟩
      intro c hc
      rcases List.mem_cons.mp hc with h1 | h1
      · exact h1 ▸ hle
      · exact le_trans (hb c h1) hle
    · refine List.pairwise_cons.mpr ⟨?_, ih hbs⟩
      intro c hc
      rcases insertKeyDesc_mem key a c bs hc with h1 | h1
      · exact h1 ▸ le_of_not_le hle
      · exact hb c h1

/-- The stable sort is descending in the key. -/
theorem sortKeyDesc_pairwise (key : α → ℚ) (l : List α) :
    (sortKeyDesc key l).Pairwise (fun x y => key y ≤ key x) := by
  induction l with
  | nil => simp [sortKeyDesc]
  | cons a as ih => exact insertKeyDesc_pairwise key a _ ih

/-- Length of the intelligent pool. -/
theorem intelligentPool_length (accounts : List Account) :
    (intelligentPool accounts).length =
      min (max 1 (accounts.length / 5)) accounts.length := by
  simp [intelligentPool, sortKeyDesc_length]

/-- Counterexample to C1 as stated: with six candidates the source pool
`sorted[:max(1, 6 // 5)]` holds a single account, not the `⌈6/5⌉ = 2` the
claim demands. -/
theorem intelligent_pool_size_counterexample :
    (intelligentPool cl6).length = 1 ∧ specTopCount cl6.length = 2 ∧
    (intelligentPool cl6).length ≠ specTopCount cl6.length := by
  have h6 : cl6.length = 6 := by simp [cl6]
  have h1 : (intelligentPool cl6).length = 1 := by
    rw [intelligentPool_length, h6]
    decide
  refine ⟨h1, by rw [h6]; decide, ?_⟩
  rw [h1, h6]
  decide

/-- On a non-empty input the pool length is exactly `max 1 (count / 5)`. -/
theorem intelligentPool_length_of_ne (accounts : List Account)
    (hne : accounts ≠ []) :
    (intelligentPool accounts).length = max 1 (accounts.length / 5) := by
  have hpos : 0 < accounts.length := List.length_pos.mpr hne
  rw [intelligentPool_length]
  have : max 1 (accounts.length / 5) ≤ accounts.length := by
    have : accounts.length / 5 ≤ accounts.length := Nat.div_le_self _ _
    omega
  omega

/-- On a non-empty input the intelligent pick exists and lies in the pool. -/
theorem intelligent_selection_mem_pool (accounts : List Account) (rand : ℕ)
    (hne : accounts ≠ []) :
    ∃ a, intelligent_selection accounts rand = some a ∧
      a ∈ intelligentPool accounts := by
  have hpos : 0 < accounts.length := List.length_pos.mpr hne
  have hlen := intelligentPool_length_of_ne accounts hne
  have hplen : 0 < (intelligentPool accounts).length := by omega
  have hidx : rand % (intelligentPool accounts).length <
      (intelligentPool accounts).length := Nat.mod_lt _ hplen
  refine ⟨(intelligentPool accounts)[rand % (intelligentPool accounts).length], ?_, ?_⟩
  · simp only [intelligent_selection, if_neg hne, listChoice]
    exact List.getElem?_eq_getElem hidx
  · exact List.getElem_mem hidx

/-- C1 (amended): for a non-empty candidate list the composite-intelligent
strategy draws its pick, indexed uniformly by the random seed, from the pool
of the top `max(1, ⌊count/5⌋)` candidates of the list sorted descending by
the scheduler-weighted composite score. -/
theorem intelligent_selection_pool (accounts : List Account) (rand : ℕ)
    (hne : accounts ≠ []) :
    (intelligentPool accounts).length = max 1 (accounts.length / 5) ∧
    (sortKeyDesc (fun a => scheduler_composite_score a accounts)
        accounts).Pairwise (fun x y => scheduler_composite_score y accounts ≤
          scheduler_composite_score x accounts) ∧
    ∃ a, intelligent_selection accounts rand = some a ∧
      a ∈ intelligentPool accounts :=
  ⟨intelligentPool_length_of_ne accounts hne, sortKeyDesc_pairwise _ _,
    intelligent_selection_mem_pool accounts rand hne⟩

/-- Witness for C1 (amended): the concrete six-account pool has size
`max 1 (6 / 5) = 1` and the pick at a concrete seed lands in it. -/
theorem intelligent_selection_pool_witness :
    (intelligentPool cl6).length = max 1 (cl6.length / 5) ∧
    (sortKeyDesc (fun a => scheduler_composite_score a cl6)
        cl6).Pairwise (fun x y => scheduler_composite_score y cl6 ≤
          scheduler_composite_score x cl6) ∧
    ∃ a, intelligent_selection cl6 3 = some a ∧ a ∈ intelligentPool cl6 :=
  intelligent_selection_pool cl6 3 (by simp [cl6])

/-- `_apply_selection_algorithm` only ever touches the round-robin part of
the scheduler state: statistics are untouched. -/
theorem apply_selection_algorithm_stats (alg : String) (accounts : List Account)
    (s : SchedulerState) (rand : ℕ) :
    (apply_selection_algorithm alg accounts s rand).2.avg_selection_time =
        s.avg_selection_time ∧
    (apply_selection_algorithm alg accounts s rand).2.total_selections =
        s.total_selections ∧
    (apply_selection_algorithm alg accounts s rand).2.algorithm_usage =
        s.algorithm_usage := by
  unfold apply_selection_algorithm
  split_ifs <;> simp

/-- Counterexample to C2 as stated: when exactly one candidate survives
filtering, `select_account` returns it but records nothing — the running
mean stays 0 instead of the claimed `(0 * 0 + 7) / 1 = 7`, no per-strategy
counter moves, and the returned account's `last_used` stays unset. -/
theorem select_single_survivor_counterexample :
    (select_account schedOne [accM] none 10 7 0).1.isSome = true ∧
    (select_account schedOne [accM] none 10 7 0).2.avg_selection_time ≠
      (schedOne.avg_selection_time * ((schedOne.total_selections : ℚ) + 1 - 1) + 7) /
        ((schedOne.total_selections : ℚ) + 1) ∧
    (select_account schedOne [accM] none 10 7 0).2.algorithm_usage "intelligent" =
      schedOne.algorithm_usage "intelligent" ∧
    Option.map (fun a => a.metrics.last_used)
      (select_account schedOne [accM] none 10 7 0).1 = some none := by
  norm_num [select_account, schedFilter, schedAfterFilter, filterAvailableAux,
    refreshAccount, get_metrics, record_request, initMC, appendBounded,
    check_account_health, health_verdict, measure_health_metrics,
    can_use_account, initFR, bumpUsage, select_algorithm,
    apply_selection_algorithm, record_selection_metrics, listChoice,
    schedOne, mcOneGood, accM, hmEmpty, wrrZero]

/-- C2 (amended): on every `select_account` call in which at least two
candidates survive filtering and the chosen strategy returns an account, the
scheduler folds the elapsed time into the running mean
`(oldMean * (n - 1) + elapsed) / n` (with `n` the incremented selection
count), bumps the chosen strategy's usage counter, and returns the account
stamped with `last_used = now`. -/
theorem select_records_metrics_on_scored_path
    (s : SchedulerState) (accounts : List Account) (ctx : Option Context)
    (now elapsed : ℚ) (rand : ℕ) (b c : Account) (rest : List Account)
    (a : Account)
    (hfil : (schedFilter s accounts now).2.1 = b :: c :: rest)
    (happ : (apply_selection_algorithm (select_algorithm ctx) (b :: c :: rest)
        (bumpUsage (schedAfterFilter s accounts now) (select_algorithm ctx))
        rand).1 = some a) :
    (select_account s accounts ctx now elapsed rand).1 =
      some { a with metrics := { a.metrics with last_used := some now } } ∧
    (select_account s accounts ctx now elapsed rand).2.avg_selection_time =
      (s.avg_selection_time * ((s.total_selections : ℚ) + 1 - 1) + elapsed) /
        ((s.total_selections : ℚ) + 1) ∧
    (select_account s accounts ctx now elapsed rand).2.algorithm_usage
        (select_algorithm ctx) =
      s.algorithm_usage (select_algorithm ctx) + 1 := by
  obtain ⟨hA, hT, hU⟩ := apply_selection_algorithm_stats (select_algorithm ctx)
    (b :: c :: rest)
    (bumpUsage (schedAfterFilter s accounts now) (select_algorithm ctx)) rand
  simp only [select_account, hfil]
  simp only [record_selection_metrics, happ]
  refine ⟨by simp, ?_, ?_⟩
  · rw [hA, hT]
    simp only [bumpUsage, schedAfterFilter]
    push_cast
    ring_nf
  · rw [hU]
    simp [bumpUsage, schedAfterFilter]

/-- Witness for C2 (amended): a concrete two-survivor run through the
default strategy records the 7-second latency as the new mean, bumps the
`intelligent` usage counter, and stamps the winner's `last_used`. -/
theorem select_records_metrics_witness :
    (select_account schedTwo [accA2, accB2] none 10 7 0).1 =
      some { accA2r with metrics :=
        { accA2r.metrics with last_used := some 10 } } ∧
    (select_account schedTwo [accA2, accB2] none 10 7 0).2.avg_selection_time =
      (schedTwo.avg_selection_time * ((schedTwo.total_selections : ℚ) + 1 - 1) + 7) /
        ((schedTwo.total_selections : ℚ) + 1) ∧
    (select_account schedTwo [accA2, accB2] none 10 7 0).2.algorithm_usage
        (select_algorithm none) =
      schedTwo.algorithm_usage (select_algorithm none) + 1 :=
  select_records_metrics_on_scored_path schedTwo [accA2, accB2] none 10 7 0
    accA2r accB2r [] accA2r
    (by
      simp [schedFilter, filterAvailableAux, refreshAccount, get_metrics,
        record_request, initMC, appendBounded, check_account_health,
        health_verdict, measure_health_metrics, can_use_account, initFR,
        schedTwo, mcTwoGood, accA2, accB2, accA2r, accB2r, hmEmpty]
      norm_num)
    (by
      simp [apply_selection_algorithm, select_algorithm,
        intelligent_selection, intelligentPool, sortKeyDesc, insertKeyDesc,
        scheduler_composite_score, calculate_cost_score, calculate_health_score,
        calculate_performance_score, calculate_reliability_score, normalize,
        listMin, listMax, listChoice, accA2r, accB2r, List.filter,
        List.cons_ne_nil])

/-- Counterexample to C3 as stated: `select_account` can return null on a
non-empty candidate list.  First run: two healthy candidates under the
weighted-round-robin context, with stored current weights at -100, make the
scan select nobody (every incremented weight stays below the -1 threshold).
Second run: two inactive accounts admitted by a still-fresh healthy cache
reach the cost-first strategy, whose own active-status filter empties. -/
theorem select_nonempty_none_counterexample :
    ([accA2, accB2] ≠ ([] : List Account)) ∧
    (select_account schedNeg [accA2, accB2]
      (some { cost_sensitive := false, high_concurrency := true })
      10 7 0).1 = none ∧
    ([accIna, accInb] ≠ ([] : List Account)) ∧
    (select_account schedStale [accIna, accInb]
      (some { cost_sensitive := true, high_concurrency := false })
      10 7 0).1 = none := by
  refine ⟨by simp, ?_, by simp, ?_⟩
  · simp [select_account, schedFilter, schedAfterFilter, filterAvailableAux,
      refreshAccount, get_metrics, record_request, initMC, appendBounded,
      check_account_health, health_verdict, measure_health_metrics,
      can_use_account, initFR, bumpUsage, select_algorithm,
      apply_selection_algorithm, record_selection_metrics, listChoice,
      wrr_select, wrrUpdateTotals, wrrScan, truncInt, calculate_account_score,
      calculate_cost_score, calculate_health_score, calculate_performance_score,
      calculate_reliability_score, normalize, listMin, listMax,
      schedNeg, mcTwoGood, accA2, accB2, hmEmpty, wrrNeg, List.filter,
      List.cons_ne_nil]
    norm_num [select_account, schedFilter, schedAfterFilter, filterAvailableAux,
      refreshAccount, get_metrics, record_request, initMC, appendBounded,
      check_account_health, health_verdict, measure_health_metrics,
      can_use_account, initFR, bumpUsage, select_algorithm,
      apply_selection_algorithm, record_selection_metrics, listChoice,
      wrr_select, wrrUpdateTotals, wrrScan, truncInt, calculate_account_score,
      calculate_cost_score, calculate_health_score, calculate_performance_score,
      calculate_reliability_score, normalize, listMin, listMax,
      schedNeg, mcTwoGood, accA2, accB2, hmEmpty, wrrNeg, List.filter,
      List.cons_ne_nil]
    simp
  · simp [select_account, schedFilter, schedAfterFilter, filterAvailableAux,
      refreshAccount, get_metrics, record_request, initMC, appendBounded,
      check_account_health, health_verdict, measure_health_metrics,
      can_use_account, initFR, bumpUsage, select_algorithm,
      apply_selection_algorithm, record_selection_metrics, listChoice,
      cost_optimizer_select, schedStale, hmStale, accIna, accInb, List.filter]
    norm_num [select_account, schedFilter, schedAfterFilter, filterAvailableAux,
      refreshAccount, get_metrics, record_request, initMC, appendBounded,
      check_account_health, health_verdict, measure_health_metrics,
      can_use_account, initFR, bumpUsage, select_algorithm,
      apply_selection_algorithm, record_selection_metrics, listChoice,
      cost_optimizer_select, schedStale, hmStale, accIna, accInb, List.filter]
    simp [select_account, schedFilter, schedAfterFilter, filterAvailableAux,
      refreshAccount, get_metrics, record_request, initMC, appendBounded,
      check_account_health, health_verdict, measure_health_metrics,
      can_use_account, initFR, bumpUsage, select_algorithm,
      apply_selection_algorithm, record_selection_metrics, listChoice,
      cost_optimizer_select, schedStale, hmStale, accIna, accInb, List.filter]

/-- The refreshed full list produced by the filter loop has the same length
as its input. -/
theorem filterAvailableAux_fst_length (mc : MCState) (l : List Account) :
    ∀ (hm : HMState) (fr : FRState) (now : ℚ),
      (filterAvailableAux mc l hm fr now).1.length = l.length := by
  induction l with
  | nil => intro hm fr now; rfl
  | cons a rest ih =>
    intro hm fr now
    simp only [filterAvailableAux]
    split_ifs <;> simp [ih]

/-- C3 (amended): `select_account` returns null on an empty candidate list;
on a non-empty list whose health/breaker filter leaves nothing it returns the
uniform-random fallback pick from the refreshed original list (always
non-null); and under the default composite-intelligent strategy the result is
always non-null.  (With the cost-first or round-robin strategies the result
can be null even for non-empty input, as the counterexample shows.) -/
theorem select_null_only_on_empty_or_strategy_miss
    (s : SchedulerState) (accounts : List Account) (ctx : Option Context)
    (now elapsed : ℚ) (rand : ℕ) :
    (accounts = [] → (select_account s accounts ctx now elapsed rand).1 = none) ∧
    (accounts ≠ [] → (schedFilter s accounts now).2.1 = [] →
      (select_account s accounts ctx now elapsed rand).1 =
        (schedFilter s accounts now).1[rand %
          (schedFilter s accounts now).1.length]? ∧
      (select_account s accounts ctx now elapsed rand).1.isSome = true) ∧
    (accounts ≠ [] → select_algorithm ctx = "intelligent" →
      (select_account s accounts ctx now elapsed rand).1.isSome = true) := by
  have hlen : (schedFilter s accounts now).1.length = accounts.length :=
    filterAvailableAux_fst_length s.collector accounts s.healthMon s.failureRec now
  have hfallback : accounts ≠ [] → (schedFilter s accounts now).2.1 = [] →
      (select_account s accounts ctx now elapsed rand).1 =
        (schedFilter s accounts now).1[rand %
          (schedFilter s accounts now).1.length]? ∧
      (select_account s accounts ctx now elapsed rand).1.isSome = true := by
    intro hne hfil
    have h1 : (select_account s accounts ctx now elapsed rand).1 =
        (schedFilter s accounts now).1[rand %
          (schedFilter s accounts now).1.length]? := by
      simp only [select_account, hfil, listChoice]
    have hpos : 0 < (schedFilter s accounts now).1.length := by
      rw [hlen]
      exact List.length_pos.mpr hne
    refine ⟨h1, ?_⟩
    rw [h1, List.getElem?_eq_getElem (Nat.mod_lt rand hpos)]
    rfl
  refine ⟨?_, hfallback, ?_⟩
  · intro h
    subst h
    simp [select_account, schedFilter, filterAvailableAux, listChoice]
  · intro hne halg
    rcases hmm : (schedFilter s accounts now).2.1 with _ | ⟨x, _ | ⟨y, rest⟩⟩
    · exact (hfallback hne hmm).2
    · simp only [select_account, hmm]
      rfl
    · simp only [select_account, hmm, halg]
      have happly : apply_selection_algorithm "intelligent" (x :: y :: rest)
          (bumpUsage (schedAfterFilter s accounts now) "intelligent") rand =
          (intelligent_selection (x :: y :: rest) rand,
           bumpUsage (schedAfterFilter s accounts now) "intelligent") := by
        simp [apply_selection_algorithm]
      rw [happly]
      obtain ⟨a, hsel, -⟩ :=
        intelligent_selection_mem_pool (x :: y :: rest) rand (by simp)
      simp [record_selection_metrics, hsel]

/-- Witness for C3 (amended): with a fresh collector every account fails the
health threshold, the filter result is empty, and `select_account` still
returns an account through the fallback pick on the non-empty input list. -/
theorem select_null_only_witness :
    ([accM] ≠ ([] : List Account)) ∧
    (schedFilter schedEmpty [accM] 10).2.1 = [] ∧
    (select_account schedEmpty [accM] none 10 7 0).1.isSome = true := by
  have hfil : (schedFilter schedEmpty [accM] 10).2.1 = [] := by
    simp [schedFilter, filterAvailableAux, refreshAccount, get_metrics, initMC,
      check_account_health, health_verdict, measure_health_metrics, hmEmpty,
      schedEmpty, accM, can_use_account, initFR]
    norm_num
  exact ⟨by simp,
    hfil,
    ((select_null_only_on_empty_or_strategy_miss schedEmpty [accM] none
      10 7 0).2.1 (by simp) hfil).2⟩

end LB
